import Mathlib

/-
  Verification development for the DIY-Delta telemetry engine.

  Floating-point values of the source (f32/f64) are modelled as exact
  rationals (ℚ); machine integers as ℕ / ℤ with explicit wrapping where
  the source truncates.  The square root on f64 is modelled as an
  abstract function parameter (sq : ℚ → ℚ): every theorem that touches
  code using sqrt is quantified over sq (the concrete runs below never
  hit a branch whose outcome depends on the value of sq, or depend only
  on its structural position).

  The f64 sentinels +inf / -inf used by bbox_of and the nearest-point
  scans are modelled by the three-valued type XQ (ninf, fin q, inf),
  whose comparisons mirror IEEE comparisons on non-NaN values.
-/

namespace Delta

/-- Extended rationals: models f64 values including the positive and
negative infinity sentinels used by the source (NaN never arises on the
modelled paths). -/
inductive XQ where
  | ninf : XQ
  | fin : ℚ → XQ
  | inf : XQ
deriving DecidableEq

/-- Strict comparison on XQ, mirroring the f64 comparison used in the source. -/
def XQ.ltB : XQ → XQ → Bool
  | XQ.ninf, XQ.ninf => false
  | XQ.ninf, XQ.fin _ => true
  | XQ.ninf, XQ.inf => true
  | XQ.fin _, XQ.ninf => false
  | XQ.fin a, XQ.fin b => decide (a < b)
  | XQ.fin _, XQ.inf => true
  | XQ.inf, XQ.ninf => false
  | XQ.inf, XQ.fin _ => false
  | XQ.inf, XQ.inf => false

/-- Non-strict order on XQ. -/
def XQ.le : XQ → XQ → Prop
  | XQ.ninf, _ => True
  | XQ.fin a, XQ.fin b => a ≤ b
  | XQ.fin _, XQ.inf => True
  | XQ.fin _, XQ.ninf => False
  | XQ.inf, XQ.inf => True
  | XQ.inf, XQ.fin _ => False
  | XQ.inf, XQ.ninf => False

instance : DecidablePred (fun p : XQ × XQ => XQ.le p.1 p.2) := by
  intro p
  rcases p with ⟨a, b⟩
  cases a <;> cases b <;> simp [XQ.le] <;> infer_instance

instance (a b : XQ) : Decidable (XQ.le a b) := by
  cases a <;> cases b <;> simp [XQ.le] <;> infer_instance

theorem XQ.le_of_not_ltB {a b : XQ} (h : XQ.ltB a b = false) : XQ.le b a := by
  cases a <;> cases b <;> simp_all [XQ.ltB, XQ.le] <;> linarith

theorem XQ.le_refl (a : XQ) : XQ.le a a := by
  cases a <;> simp [XQ.le]

theorem XQ.le_trans {a b c : XQ} (h1 : XQ.le a b) (h2 : XQ.le b c) : XQ.le a c := by
  cases a <;> cases b <;> cases c <;> simp_all [XQ.le] <;> linarith

/-- Games supported by the ingest layer (crates/delta-ingest-core). -/
inductive Game where
  | F1_2024 : Game
  | F1_2025 : Game
  | GT7 : Game
  | LMU : Game
deriving DecidableEq

/-- The lowercased Debug rendering of Game used by Inner::feed_sample. -/
def gameStr : Game → String
  | Game.F1_2024 => "f1_2024"
  | Game.F1_2025 => "f1_2025"
  | Game.GT7 => "gt7"
  | Game.LMU => "lmu"

/-- crates/delta-ingest-core: TelemetrySample (floats as ℚ, u32 as ℕ, i8 as ℤ). -/
structure TelemetrySample where
  game : Game
  car_id : String
  session_uid : String
  frame : ℕ
  sim_time_s : ℚ
  speed_mps : ℚ
  throttle : ℚ
  brake : ℚ
  gear : ℤ
  engine_rpm : ℚ
  world_pos_x : ℚ
  world_pos_y : ℚ
  world_pos_z : ℚ
  yaw : ℚ
  pitch : ℚ
  roll : ℚ
  lap_distance_m : ℚ
  current_lap : ℕ
  current_lap_time_s : ℚ
  last_lap_time_s : ℚ
deriving DecidableEq

/-- crates/model: TelemetryPoint. -/
structure TelemetryPoint where
  t_ms : ℚ
  lap_distance_m : ℚ
  x : ℚ
  y : ℚ
  speed_kph : ℚ
  throttle : ℚ
  brake : ℚ
  gear : ℤ
  rpm : ℚ
deriving DecidableEq

/-- crates/model: LapMeta (Uuid modelled as ℕ drawn from a counter). -/
structure LapMeta where
  id : ℕ
  game : String
  car : String
  track : String
  lap_number : ℕ
deriving DecidableEq

/-- crates/model: Lap. -/
structure Lap where
  id : ℕ
  meta : LapMeta
  total_time_ms : ℕ
  points : List TelemetryPoint
deriving DecidableEq

/-- crates/model: Sector. -/
structure Sector where
  start_m : ℚ
  end_m : ℚ
deriving DecidableEq

/-- crates/model: CornerLabel. -/
structure CornerLabel where
  index : ℕ
  x : ℚ
  y : ℚ
deriving DecidableEq, Inhabited

/-- crates/model: BBox; fields are extended rationals because bbox_of
initialises them to the f64 infinity sentinels. -/
structure BBox where
  minx : XQ
  maxx : XQ
  miny : XQ
  maxy : XQ
deriving DecidableEq

/-- crates/model: Point2. -/
structure Point2 where
  x : ℚ
  y : ℚ
deriving DecidableEq

/-- crates/model: TrackMap. -/
structure TrackMap where
  polyline : List Point2
  corners : List CornerLabel
  sectors : List Sector
  bbox : BBox
deriving DecidableEq

/-- The Rust cast (q : f64) as u64: truncation toward zero, negative
values collapse to 0 (on the modelled inputs the operand is finite). -/
def ratToU64 (q : ℚ) : ℕ := (⌊q⌋).toNat

/-- crates/analysis: thirds — very simple 3-way split of a lap into
elapsed-time segments (ms). -/
def thirds (l : Lap) : List ℕ :=
  let n := max l.points.length 1
  let s := n / 3
  (List.range 3).map fun i =>
    let a := i * s
    let b := if i = 2 then n - 1 else min ((i + 1) * s) (n - 1)
    let ta := ((l.points[a]?).map (fun p => p.t_ms)).getD 0
    let tb := ((l.points[b]?).map (fun p => p.t_ms)).getD ta
    ratToU64 (max (tb - ta) 0)

/-- A telemetry point with the given time stamp and all other fields zero. -/
def mkPt (t : ℚ) : TelemetryPoint :=
  { t_ms := t, lap_distance_m := 0, x := 0, y := 0, speed_kph := 0,
    throttle := 0, brake := 0, gear := 0, rpm := 0 }

/-- The timestamps of the thirds scenario: 0, 100, ..., 800 ms. -/
def nineTimes : List ℚ := [0, 100, 200, 300, 400, 500, 600, 700, 800]

/-- The 9-point lap of the thirds scenario: t_ms = 0, 100, ..., 800. -/
def lap9 : Lap :=
  { id := 1, meta := { id := 2, game := "test", car := "car", track := "track", lap_number := 1 },
    total_time_ms := 0,
    points := nineTimes.map mkPt }

/-- C3: the claim states thirds returns [200, 200, 300] on the 9-point lap
with t_ms = 0, 100, ..., 800; the code returns [300, 300, 200] (the chunk
boundaries are at indices 0, 3, 6 and n-1 = 8, so the LAST chunk is the
short one). -/
theorem C3_counterexample :
    thirds lap9 = [300, 300, 200] ∧ thirds lap9 ≠ [200, 200, 300] := by
  constructor
  · with_unfolding_all decide
  · with_unfolding_all decide

/-- C3 (amended): for every lap whose points carry t_ms = 0, 100, ..., 800
(9 points), thirds returns the elapsed-time segments [300, 300, 200]: the
boundaries sit at indices 0, 3, 6 and 8, so the first two chunks span 300 ms
each and the last spans the remaining 200 ms. -/
theorem C3_theorem (l : Lap)
    (h : l.points.map (fun p => p.t_ms) = nineTimes) :
    thirds l = [300, 300, 200] := by
  have hlen : l.points.length = 9 := by
    have h2 := congrArg List.length h
    simpa [nineTimes] using h2
  have hget : ∀ a : ℕ, (l.points[a]?).map (fun p => p.t_ms) = nineTimes[a]? := by
    intro a
    rw [← h, List.getElem?_map]
  have hr3 : List.range 3 = [0, 1, 2] := rfl
  simp only [thirds, hlen, hr3, List.map_cons, List.map_nil]
  norm_num [hget, nineTimes, ratToU64]
  omega

set_option maxRecDepth 4000 in
/-- C3 witness: the theorem applied to the concrete 9-point lap. -/
theorem C3_witness : thirds lap9 = [300, 300, 200] :=
  C3_theorem lap9 (by with_unfolding_all decide)

/-- crates/delta-ingest-lmu: RF2Vec3 (f32 components as ℚ). -/
structure RF2Vec3 where
  x : ℚ
  y : ℚ
  z : ℚ
deriving DecidableEq

/-- crates/delta-ingest-lmu: the fields of RF2Telemetry read by the adapter
(version counters as ℕ for u32, mGear as ℤ for i32, floats as ℚ; the four
wheel blocks and the reserved tail are never read and are omitted). -/
structure RF2Telemetry where
  version_update_begin : ℕ
  mLocalVel : RF2Vec3
  mLocalAccel : RF2Vec3
  mLocalRot : RF2Vec3
  mLocalRotAccel : RF2Vec3
  mOri : RF2Vec3
  mPos : RF2Vec3
  mEngineRPM : ℚ
  mMaxRPM : ℚ
  mThrottle : ℚ
  mBrake : ℚ
  mClutch : ℚ
  mSteering : ℚ
  mGear : ℤ
  mGearEngaged : ℤ
  mSpeed : ℚ
  mLapDist : ℚ
  mLapNumber : ℕ
  mLapStartET : ℚ
  mElapsedTime : ℚ
  mLastLapTime : ℚ
  version_update_end : ℕ
deriving DecidableEq

/-- crates/delta-ingest-lmu: RF2Telemetry::validate. -/
def RF2Telemetry.validate (t : RF2Telemetry) : Bool :=
  if t.version_update_begin ≠ t.version_update_end then false
  else if ¬ (0 ≤ t.mThrottle ∧ t.mThrottle ≤ 1) ∨ ¬ (0 ≤ t.mBrake ∧ t.mBrake ≤ 1) then false
  else if ¬ (-1 ≤ t.mGear ∧ t.mGear ≤ 12) then false
  else true

/-- The abstract square root stand-in used to instantiate theorems that are
quantified over the f64 sqrt (the runs below never depend on its values). -/
def sq0 : ℚ → ℚ := fun _ => 0

/-- crates/delta-ingest-lmu: one iteration of LMUSource::run on a snapshot —
the sample built and emitted when validate passes, and nothing otherwise.
sq abstracts f64::sqrt.  The mSpeed.is_finite() guard of the source is
always true in the rational model, so speed prefers mSpeed exactly when it
is non-negative. -/
def lmuEmit (sq : ℚ → ℚ) (t : RF2Telemetry) : Option TelemetrySample :=
  if t.validate then
    let speed_mps :=
      if 0 ≤ t.mSpeed then t.mSpeed
      else sq (t.mLocalVel.x ^ 2 + t.mLocalVel.y ^ 2 + t.mLocalVel.z ^ 2)
    some
      { game := Game.LMU
        car_id := "player:0"
        session_uid := "lmu"
        frame := ratToU64 (t.mElapsedTime * 1000)
        sim_time_s := t.mElapsedTime
        speed_mps := speed_mps
        throttle := t.mThrottle
        brake := t.mBrake
        gear := t.mGear
        engine_rpm := t.mEngineRPM
        world_pos_x := t.mPos.x
        world_pos_y := t.mPos.y
        world_pos_z := t.mPos.z
        yaw := t.mOri.y
        pitch := t.mOri.x
        roll := t.mOri.z
        lap_distance_m := t.mLapDist
        current_lap := t.mLapNumber
        current_lap_time_s := max (t.mElapsedTime - t.mLapStartET) 0
        last_lap_time_s := t.mLastLapTime }
  else none

/-- The acceptance condition exactly as the C4 claim words it (the
finiteness conjunct is vacuous in the rational model, the magnitude bound
is not): version counters equal, controls in range, gear in range, and all
three local-velocity components of magnitude at most 1000. -/
def claimedAcceptC4 (t : RF2Telemetry) : Prop :=
  t.version_update_begin = t.version_update_end ∧
  (0 ≤ t.mThrottle ∧ t.mThrottle ≤ 1) ∧ (0 ≤ t.mBrake ∧ t.mBrake ≤ 1) ∧
  (-1 ≤ t.mGear ∧ t.mGear ≤ 12) ∧
  |t.mLocalVel.x| ≤ 1000 ∧ |t.mLocalVel.y| ≤ 1000 ∧ |t.mLocalVel.z| ≤ 1000

/-- A snapshot whose local velocity x-component is 2000 m/s but which is
otherwise sane: the claim says it must be rejected. -/
def lmuBadVel : RF2Telemetry :=
  { version_update_begin := 7
    mLocalVel := { x := 2000, y := 0, z := 0 }
    mLocalAccel := { x := 0, y := 0, z := 0 }
    mLocalRot := { x := 0, y := 0, z := 0 }
    mLocalRotAccel := { x := 0, y := 0, z := 0 }
    mOri := { x := 0, y := 0, z := 0 }
    mPos := { x := 0, y := 0, z := 0 }
    mEngineRPM := 0, mMaxRPM := 0, mThrottle := 0, mBrake := 0
    mClutch := 0, mSteering := 0, mGear := 0, mGearEngaged := 0
    mSpeed := 0, mLapDist := 0, mLapNumber := 1
    mLapStartET := 0, mElapsedTime := 0, mLastLapTime := 0
    version_update_end := 7 }

/-- C4: the claim requires rejection of snapshots whose local-velocity
components exceed 1000 m/s in magnitude, but RF2Telemetry::validate never
inspects the local velocity: the snapshot lmuBadVel (velocity x = 2000,
everything else sane) is accepted and a sample IS emitted, refuting the
claimed if-and-only-if. -/
theorem C4_counterexample :
    (lmuEmit sq0 lmuBadVel).isSome = true ∧ ¬ claimedAcceptC4 lmuBadVel := by
  constructor
  · with_unfolding_all decide
  · intro h
    have hx := h.2.2.2.2.1
    rw [show lmuBadVel.mLocalVel.x = 2000 from rfl] at hx
    norm_num at hx

/-- C4 (amended): an LMU shared-memory snapshot is accepted (a sample is
emitted by the run loop) if and only if version_update_begin equals
version_update_end, throttle and brake lie in [0,1], and gear lies in
[-1,12]; the local velocity is NOT validated. -/
theorem C4_theorem (sq : ℚ → ℚ) (t : RF2Telemetry) :
    (lmuEmit sq t).isSome = true ↔
      (t.version_update_begin = t.version_update_end ∧
       (0 ≤ t.mThrottle ∧ t.mThrottle ≤ 1) ∧ (0 ≤ t.mBrake ∧ t.mBrake ≤ 1) ∧
       (-1 ≤ t.mGear ∧ t.mGear ≤ 12)) := by
  have hval : t.validate = true ↔
      (t.version_update_begin = t.version_update_end ∧
       (0 ≤ t.mThrottle ∧ t.mThrottle ≤ 1) ∧ (0 ≤ t.mBrake ∧ t.mBrake ≤ 1) ∧
       (-1 ≤ t.mGear ∧ t.mGear ≤ 12)) := by
    unfold RF2Telemetry.validate
    split_ifs with h1 h2 h3
    all_goals simp_all
    all_goals try tauto
    all_goals intro ha hb hc hd he
    all_goals rcases h2 with h | h
    · exact absurd (h ha) (by linarith)
    · exact absurd (h hc) (by linarith)
  rw [← hval]
  unfold lmuEmit
  by_cases h : t.validate = true <;> simp [h]

/-- crates/analysis: peak_indices — non-maximum suppression over the
smoothed curvature series.  The loop runs i over window..(n-window); a
candidate survives unless some curv[k] with k in [i-window, i+window) is
strictly greater. -/
def peak_indices (curv : List ℚ) (window : ℕ) (threshold : ℚ) : List ℕ :=
  if curv.length = 0 ∨ window = 0 ∨ curv.length ≤ window * 2 then []
  else
    (List.range' window (curv.length - window - window)).filter fun i =>
      decide (threshold ≤ curv.getD i 0) &&
      ((List.range' (i - window) (window * 2)).all fun k =>
        decide (curv.getD k 0 ≤ curv.getD i 0))

/-- A length-26 curvature array with the tied values 0.05 at indices 12 and
13 (each inside the other's suppression window) and zero elsewhere. -/
def tie26 : List ℚ := (List.range 26).map fun i => if i = 12 ∨ i = 13 then 1 / 20 else 0

/-- A length-40 array with a bump 0.1 at index 20 and noise 0.02 elsewhere. -/
def bump40 : List ℚ := (List.range 40).map fun i => if i = 20 then 1 / 10 else 1 / 50

/-- A flat length-40 array. -/
def flat40 : List ℚ := List.replicate 40 0

/-- A length-40 array with a bump 0.1 at index 5 (inside the edge margin). -/
def bumpAt5 : List ℚ := (List.range 40).map fun i => if i = 5 then 1 / 10 else 0

/-- C8: the claim says that when two window-sharing entries tie for the
maximum, only the first is retained as a peak.  The suppression test uses a
strict comparison, so a tie suppresses neither: on tie26 (equal maxima at
indices 12 and 13, within each other's windows) the code returns BOTH
indices, not just the first. -/
theorem C8_counterexample :
    peak_indices tie26 12 (3 / 100) = [12, 13] ∧
      peak_indices tie26 12 (3 / 100) ≠ [12] := by
  constructor
  · with_unfolding_all decide
  · with_unfolding_all decide

/-- C8 (amended): peak_indices(curv, 12, 0.03) returns exactly the indices i
with 12 ≤ i and i + 12 < n whose value is at least 0.03 and is not strictly
exceeded by any curv[k] for k in [i-12, i+12); entries that tie for the
window maximum are ALL retained (the suppression comparison is strict).
On the length-40 bump array it returns [20], on a flat array [], and on a
bump at index 5 []. -/
theorem C8_theorem :
    (∀ (curv : List ℚ) (i : ℕ),
      i ∈ peak_indices curv 12 (3 / 100) ↔
        (12 ≤ i ∧ i + 12 < curv.length ∧ 3 / 100 ≤ curv.getD i 0 ∧
          ∀ k, i - 12 ≤ k → k < i + 12 → curv.getD k 0 ≤ curv.getD i 0)) ∧
    peak_indices bump40 12 (3 / 100) = [20] ∧
    peak_indices flat40 12 (3 / 100) = [] ∧
    peak_indices bumpAt5 12 (3 / 100) = [] := by
  refine ⟨?_, by with_unfolding_all decide, by with_unfolding_all decide,
    by with_unfolding_all decide⟩
  intro curv i
  by_cases hg : curv.length = 0 ∨ 12 = 0 ∨ curv.length ≤ 12 * 2
  · rw [peak_indices, if_pos hg]
    simp only [List.not_mem_nil, false_iff]
    rintro ⟨h1, h2, -, -⟩
    rcases hg with h | h | h <;> omega
  · rw [peak_indices, if_neg hg]
    push_neg at hg
    simp only [List.mem_filter, List.mem_range'_1, Bool.and_eq_true, decide_eq_true_eq,
      List.all_eq_true]
    constructor
    · rintro ⟨⟨hlo, hhi⟩, hth, hall⟩
      refine ⟨hlo, by omega, hth, ?_⟩
      intro k hk1 hk2
      exact hall k (by omega)
    · rintro ⟨hlo, hhi, hth, hall⟩
      refine ⟨⟨hlo, by omega⟩, hth, ?_⟩
      intro k hk
      exact hall k (by omega) (by omega)

/-- crates/analysis: curvature_series — central-difference curvature proxy
followed by a 5-wide clipped moving average; sq abstracts f64::sqrt. -/
def curvature_series (sq : ℚ → ℚ) (points : List TelemetryPoint) : List ℚ :=
  if points.length = 0 then []
  else
    let n := points.length
    let c := (List.range n).map fun i =>
      if 1 ≤ i ∧ i + 1 < n then
        let p0 := points.getD (i - 1) (mkPt 0)
        let p1 := points.getD i (mkPt 0)
        let p2 := points.getD (i + 1) (mkPt 0)
        let dx1 := p1.x - p0.x
        let dy1 := p1.y - p0.y
        let dx2 := p2.x - p1.x
        let dy2 := p2.y - p1.y
        let cross := |dx1 * dy2 - dy1 * dx2|
        let a := sq (dx1 * dx1 + dy1 * dy1)
        let b := sq (dx2 * dx2 + dy2 * dy2)
        let csum := sq ((dx1 + dx2) * (dx1 + dx2) + (dy1 + dy2) * (dy1 + dy2))
        let den := max (a * b * csum) (1 / 1000000)
        cross / den
      else 0
    (List.range n).map fun i =>
      let lo := i - 2
      let hi := min (i + 3) n
      let sum := ((List.range' lo (hi - lo)).map fun k => c.getD k 0).sum
      let cnt : ℚ := (hi - lo : ℕ)
      if 0 < cnt then sum / cnt else 0

/-- crates/analysis: the min-update of bbox_of for one coordinate. -/
def xmin (a : XQ) (q : ℚ) : XQ := if XQ.ltB (XQ.fin q) a then XQ.fin q else a

/-- crates/analysis: the max-update of bbox_of for one coordinate. -/
def xmax (a : XQ) (q : ℚ) : XQ := if XQ.ltB a (XQ.fin q) then XQ.fin q else a

/-- One iteration of the bbox_of fold. -/
def bboxStep (acc : BBox) (p : Point2) : BBox :=
  { minx := xmin acc.minx p.x, maxx := xmax acc.maxx p.x,
    miny := xmin acc.miny p.y, maxy := xmax acc.maxy p.y }

/-- crates/analysis: bbox_of — fold starting from the infinity sentinels. -/
def bbox_of (pl : List Point2) : BBox :=
  pl.foldl bboxStep { minx := XQ.inf, maxx := XQ.ninf, miny := XQ.inf, maxy := XQ.ninf }

/-- The windows(2) pass of auto_sectors: consecutive cut distances become
Sector records. -/
def mkSectors : List ℚ → List Sector
  | a :: b :: rest => { start_m := a, end_m := b } :: mkSectors (b :: rest)
  | _ => []

/-- The cut-index pipeline of auto_sectors: enumerate the curvature values,
sort descending by value (sort_by with b.partial_cmp(a)), keep the first
n-1 indices, sort those ascending (sort_unstable) and drop consecutive
duplicates (Vec::dedup). -/
def sectorCuts (curv : List ℚ) (n : ℕ) : List ℕ :=
  ((((curv.enum.mergeSort fun a b => decide (b.2 ≤ a.2)).take (n - 1)).map
      fun x => x.1).mergeSort fun a b => decide (a ≤ b)).destutter (· ≠ ·)

/-- crates/analysis: auto_sectors — top (n-1) curvature indices (descending
value sort), ascending index sort, consecutive dedup, then bracket by the
first and last point's lap_distance_m and pair up consecutive cuts. -/
def auto_sectors (lap : Lap) (curv : List ℚ) (n : ℕ) : List Sector :=
  if lap.points = [] ∨ n = 0 then []
  else
    mkSectors ((((lap.points.head?.map fun p => p.lap_distance_m).getD 0) ::
        (sectorCuts curv n).filterMap fun c =>
          (lap.points[c]?).map fun p => p.lap_distance_m) ++
      [(lap.points.getLast?.map fun p => p.lap_distance_m).getD 0])

/-- crates/analysis: build_track_map. -/
def build_track_map (sq : ℚ → ℚ) (lap : Lap) : TrackMap :=
  { polyline := lap.points.map fun p => { x := p.x, y := p.y : Point2 }
    corners := (peak_indices (curvature_series sq lap.points) 12 (3 / 100)).enum.filterMap
      fun ii => (lap.points[ii.2]?).map fun p =>
        { index := ii.1 + 1, x := p.x, y := p.y : CornerLabel }
    sectors := auto_sectors lap (curvature_series sq lap.points) 3
    bbox := bbox_of (lap.points.map fun p => { x := p.x, y := p.y : Point2 }) }

/-- A lap with no points at all. -/
def emptyLap : Lap :=
  { id := 20, meta := { id := 21, game := "test", car := "car", track := "track", lap_number := 1 },
    total_time_ms := 0, points := [] }

/-- A one-point lap used as the concrete witness input. -/
def lap1pt : Lap :=
  { id := 30, meta := { id := 31, game := "test", car := "car", track := "track", lap_number := 1 },
    total_time_ms := 0, points := [mkPt 0] }

/-- C10: build_track_map on a lap with zero points is total and returns the
empty polyline, corners and sectors, and the degenerate bbox left at the
fold's sentinel values minx = +inf, maxx = -inf, miny = +inf, maxy = -inf. -/
theorem C10_theorem (sq : ℚ → ℚ) :
    build_track_map sq emptyLap =
      { polyline := [], corners := [], sectors := [],
        bbox := { minx := XQ.inf, maxx := XQ.ninf, miny := XQ.inf, maxy := XQ.ninf } } := by
  rfl

theorem XQ.le_of_ltB {a b : XQ} (h : XQ.ltB a b = true) : XQ.le a b := by
  cases a <;> cases b <;> simp_all [XQ.ltB, XQ.le] <;> linarith

theorem xmin_le_self (a : XQ) (q : ℚ) : XQ.le (xmin a q) a := by
  unfold xmin
  split_ifs with h
  · exact XQ.le_of_ltB h
  · exact XQ.le_refl a

theorem xmin_le_fin (a : XQ) (q : ℚ) : XQ.le (xmin a q) (XQ.fin q) := by
  unfold xmin
  split_ifs with h
  · exact XQ.le_refl _
  · simp only [Bool.not_eq_true] at h
    exact XQ.le_of_not_ltB h

theorem xmax_self_le (a : XQ) (q : ℚ) : XQ.le a (xmax a q) := by
  unfold xmax
  split_ifs with h
  · exact XQ.le_of_ltB h
  · exact XQ.le_refl a

theorem xmax_fin_le (a : XQ) (q : ℚ) : XQ.le (XQ.fin q) (xmax a q) := by
  unfold xmax
  split_ifs with h
  · exact XQ.le_refl _
  · simp only [Bool.not_eq_true] at h
    exact XQ.le_of_not_ltB h

theorem bbox_foldl_mono (pl : List Point2) (acc : BBox) :
    XQ.le (pl.foldl bboxStep acc).minx acc.minx ∧ XQ.le acc.maxx (pl.foldl bboxStep acc).maxx ∧
    XQ.le (pl.foldl bboxStep acc).miny acc.miny ∧ XQ.le acc.maxy (pl.foldl bboxStep acc).maxy := by
  induction pl generalizing acc with
  | nil => exact ⟨XQ.le_refl _, XQ.le_refl _, XQ.le_refl _, XQ.le_refl _⟩
  | cons p rest ih =>
    simp only [List.foldl_cons]
    obtain ⟨h1, h2, h3, h4⟩ := ih (bboxStep acc p)
    exact ⟨XQ.le_trans h1 (xmin_le_self _ _), XQ.le_trans (xmax_self_le _ _) h2,
           XQ.le_trans h3 (xmin_le_self _ _), XQ.le_trans (xmax_self_le _ _) h4⟩

theorem bbox_foldl_mem (pl : List Point2) (acc : BBox) :
    ∀ p ∈ pl, XQ.le (pl.foldl bboxStep acc).minx (XQ.fin p.x) ∧
      XQ.le (XQ.fin p.x) (pl.foldl bboxStep acc).maxx ∧
      XQ.le (pl.foldl bboxStep acc).miny (XQ.fin p.y) ∧
      XQ.le (XQ.fin p.y) (pl.foldl bboxStep acc).maxy := by
  induction pl generalizing acc with
  | nil => intro p hp; cases hp
  | cons q rest ih =>
    intro p hp
    simp only [List.foldl_cons]
    rcases List.mem_cons.mp hp with rfl | hmem
    · obtain ⟨h1, h2, h3, h4⟩ := bbox_foldl_mono rest (bboxStep acc p)
      exact ⟨XQ.le_trans h1 (xmin_le_fin _ _), XQ.le_trans (xmax_fin_le _ _) h2,
             XQ.le_trans h3 (xmin_le_fin _ _), XQ.le_trans (xmax_fin_le _ _) h4⟩
    · exact ih (bboxStep acc q) p hmem

theorem curvature_series_length (sq : ℚ → ℚ) (pts : List TelemetryPoint) :
    (curvature_series sq pts).length = pts.length := by
  unfold curvature_series
  split_ifs with h
  · simp [h]
  · simp

theorem peak_indices_lt_length (curv : List ℚ) (w : ℕ) (θ : ℚ) :
    ∀ i ∈ peak_indices curv w θ, i < curv.length := by
  intro i hi
  unfold peak_indices at hi
  split_ifs at hi with h
  · simp at hi
  · push_neg at h
    obtain ⟨h1, h2, h3⟩ := h
    have hm := (List.mem_filter.mp hi).1
    have hr := List.mem_range'_1.mp hm
    omega

theorem cornersAux (pts : List TelemetryPoint) :
    ∀ (peaks : List ℕ) (k : ℕ), (∀ x ∈ peaks, x < pts.length) →
      ∀ (i : ℕ) (c : CornerLabel),
        ((peaks.enumFrom k).filterMap fun ii =>
          (pts[ii.2]?).map fun p =>
            { index := ii.1 + 1, x := p.x, y := p.y : CornerLabel })[i]? = some c →
        c.index = k + i + 1
  | [], _, _, i, c => by simp
  | a :: rest, k, hb, i, c => by
    intro hc
    have ha : a < pts.length := hb a (List.mem_cons_self a rest)
    rw [List.enumFrom_cons] at hc
    have hsome : ((pts[a]?).map fun p =>
        { index := k + 1, x := p.x, y := p.y : CornerLabel })
        = some { index := k + 1, x := (pts.get ⟨a, ha⟩).x, y := (pts.get ⟨a, ha⟩).y } := by
      simp [List.getElem?_eq_getElem ha, List.get_eq_getElem]
    simp only [List.filterMap_cons, hsome] at hc
    match i, hc with
    | 0, hc =>
      simp only [List.getElem?_cons_zero, Option.some.injEq] at hc
      rw [← hc]
    | i + 1, hc =>
      rw [List.getElem?_cons_succ] at hc
      have hr := cornersAux pts rest (k + 1) (fun x hx => hb x (List.mem_cons_of_mem _ hx)) i c hc
      omega

/-- The lap_distance_m of the c-th point (0 when out of range). -/
def distOf (pts : List TelemetryPoint) (c : ℕ) : ℚ := (pts.getD c (mkPt 0)).lap_distance_m

theorem distOf_eq (pts : List TelemetryPoint) {i : ℕ} (hi : i < pts.length) :
    distOf pts i = (pts.get ⟨i, hi⟩).lap_distance_m := by
  simp [distOf, List.getD_eq_getElem?_getD, List.getElem?_eq_getElem hi, List.get_eq_getElem]

theorem distOf_mono (pts : List TelemetryPoint)
    (hmono : (pts.map fun p => p.lap_distance_m).Sorted (· ≤ ·))
    {i j : ℕ} (hij : i ≤ j) (hj : j < pts.length) :
    distOf pts i ≤ distOf pts j := by
  have hi : i < pts.length := lt_of_le_of_lt hij hj
  have hlen : (pts.map fun p => p.lap_distance_m).length = pts.length := List.length_map _ _
  have h := hmono.rel_get_of_le
    (show (⟨i, by omega⟩ : Fin (pts.map fun p => p.lap_distance_m).length) ≤ ⟨j, by omega⟩ from
      Fin.mk_le_mk.mpr hij)
  rw [distOf_eq pts hi, distOf_eq pts hj]
  simpa [List.get_eq_getElem, List.getElem_map] using h

theorem filterMap_dist_eq_map (pts : List TelemetryPoint) :
    ∀ (cuts : List ℕ), (∀ c ∈ cuts, c < pts.length) →
      (cuts.filterMap fun c => (pts[c]?).map fun p => p.lap_distance_m)
        = cuts.map (distOf pts) := by
  intro cuts
  induction cuts with
  | nil => intro _; rfl
  | cons a rest ih =>
    intro hb
    have ha : a < pts.length := hb a (List.mem_cons_self a rest)
    have hsome : ((pts[a]?).map fun p => p.lap_distance_m) = some (distOf pts a) := by
      simp [distOf, List.getD_eq_getElem?_getD, List.getElem?_eq_getElem ha]
    simp only [List.filterMap_cons, hsome, List.map_cons]
    congr 1
    exact ih (fun c hc => hb c (List.mem_cons_of_mem _ hc))

theorem sectorCuts_lt (curv : List ℚ) (n : ℕ) :
    ∀ c ∈ sectorCuts curv n, c < curv.length := by
  intro c hc
  unfold sectorCuts at hc
  have h1 := List.Sublist.mem hc
    (List.destutter_sublist (R := fun x1 x2 : ℕ => x1 ≠ x2) _)
  have h2 := List.mem_mergeSort.mp h1
  obtain ⟨x, hx, rfl⟩ := List.mem_map.mp h2
  have h3 := List.Sublist.mem hx (List.take_sublist _ _)
  have h4 := List.mem_mergeSort.mp h3
  exact List.fst_lt_of_mem_enum h4

theorem sectorCuts_sorted (curv : List ℚ) (n : ℕ) :
    (sectorCuts curv n).Pairwise (· ≤ ·) := by
  unfold sectorCuts
  apply List.Pairwise.sublist (List.destutter_sublist (R := fun x1 x2 : ℕ => x1 ≠ x2) _)
  have hs := @List.sorted_mergeSort ℕ (fun a b : ℕ => decide (a ≤ b))
    (fun a b c hab hbc => by
      simp only [decide_eq_true_eq] at hab hbc ⊢
      omega)
    (fun a b => by
      simp only [Bool.or_eq_true, decide_eq_true_eq]
      omega)
    (((curv.enum.mergeSort fun a b => decide (b.2 ≤ a.2)).take (n - 1)).map fun x => x.1)
  exact hs.imp (fun h => by simpa using h)

theorem mkSectors_chain :
    ∀ ds : List ℚ, List.Chain' (fun s t => s.end_m = t.start_m) (mkSectors ds)
  | [] => by simp [mkSectors]
  | [a] => by simp [mkSectors]
  | a :: b :: rest => by
    have ih := mkSectors_chain (b :: rest)
    rw [show mkSectors (a :: b :: rest)
        = { start_m := a, end_m := b } :: mkSectors (b :: rest) from rfl]
    cases rest with
    | nil => simp [mkSectors]
    | cons c t =>
      rw [show mkSectors (b :: c :: t)
          = { start_m := b, end_m := c } :: mkSectors (c :: t) from rfl] at ih ⊢
      exact List.chain'_cons.mpr ⟨rfl, ih⟩

theorem mkSectors_le :
    ∀ ds : List ℚ, List.Chain' (· ≤ ·) ds → ∀ s ∈ mkSectors ds, s.start_m ≤ s.end_m
  | [] => by simp [mkSectors]
  | [a] => by simp [mkSectors]
  | a :: b :: rest => by
    intro h s hs
    rw [show mkSectors (a :: b :: rest)
        = { start_m := a, end_m := b } :: mkSectors (b :: rest) from rfl] at hs
    rcases List.mem_cons.mp hs with rfl | hmem
    · exact (List.chain'_cons.mp h).1
    · exact mkSectors_le (b :: rest) (List.chain'_cons.mp h).2 s hmem

theorem mkSectors_head (a b : ℚ) (t : List ℚ) :
    ((mkSectors (a :: b :: t)).head?.map fun s => s.start_m) = some a := rfl

theorem mkSectors_last :
    ∀ (a b : ℚ) (t : List ℚ),
      ((mkSectors (a :: b :: t)).getLast?.map fun s => s.end_m) = (a :: b :: t).getLast?
  | _, _, [] => rfl
  | a, b, c :: t => by
    have ih := mkSectors_last b c t
    rw [show mkSectors (a :: b :: c :: t)
        = { start_m := a, end_m := b } :: mkSectors (b :: c :: t) from rfl]
    rw [show mkSectors (b :: c :: t)
        = { start_m := b, end_m := c } :: mkSectors (c :: t) from rfl] at ih ⊢
    rw [List.getLast?_cons_cons] at ih ⊢
    rw [ih]
    simp

theorem auto_sectors_spec (lap : Lap) (curv : List ℚ)
    (hne : lap.points ≠ [])
    (hmono : (lap.points.map fun p => p.lap_distance_m).Sorted (· ≤ ·))
    (hcl : curv.length = lap.points.length) :
    auto_sectors lap curv 3 ≠ [] ∧
    List.Chain' (fun s t => s.end_m = t.start_m) (auto_sectors lap curv 3) ∧
    (∀ s ∈ auto_sectors lap curv 3, s.start_m ≤ s.end_m) ∧
    ((auto_sectors lap curv 3).head?.map fun s => s.start_m)
      = (lap.points.head?.map fun p => p.lap_distance_m) ∧
    ((auto_sectors lap curv 3).getLast?.map fun s => s.end_m)
      = (lap.points.getLast?.map fun p => p.lap_distance_m) := by
  obtain ⟨p0, pts0, hpts⟩ : ∃ p0 pts0, lap.points = p0 :: pts0 := by
    cases hp : lap.points with
    | nil => exact absurd hp hne
    | cons a l => exact ⟨a, l, rfl⟩
  have hlen0 : 0 < lap.points.length := by rw [hpts]; simp
  have hcb : ∀ c ∈ sectorCuts curv 3, c < lap.points.length := fun c hc =>
    hcl ▸ sectorCuts_lt curv 3 c hc
  have hsec : auto_sectors lap curv 3
      = mkSectors ((((lap.points.head?.map fun p => p.lap_distance_m).getD 0) ::
          (sectorCuts curv 3).map (distOf lap.points)) ++
        [(lap.points.getLast?.map fun p => p.lap_distance_m).getD 0]) := by
    unfold auto_sectors
    rw [if_neg (by simp [hne]), filterMap_dist_eq_map lap.points (sectorCuts curv 3) hcb]
  have hd0 : ((lap.points.head?.map fun p => p.lap_distance_m).getD 0)
      = distOf lap.points 0 := by
    rw [hpts]
    simp [distOf]
  have hdN : ((lap.points.getLast?.map fun p => p.lap_distance_m).getD 0)
      = distOf lap.points (lap.points.length - 1) := by
    rw [List.getLast?_eq_getElem?,
      List.getElem?_eq_getElem (show lap.points.length - 1 < lap.points.length by omega),
      distOf_eq lap.points (show lap.points.length - 1 < lap.points.length by omega)]
    simp [List.get_eq_getElem]
  have hpw : ((((lap.points.head?.map fun p => p.lap_distance_m).getD 0) ::
      (sectorCuts curv 3).map (distOf lap.points)) ++
      [(lap.points.getLast?.map fun p => p.lap_distance_m).getD 0]).Pairwise (· ≤ ·) := by
    rw [hd0, hdN, List.cons_append]
    refine List.pairwise_cons.mpr ⟨?_, ?_⟩
    · intro x hx
      rcases List.mem_append.mp hx with hx | hx
      · obtain ⟨cc, hcc, rfl⟩ := List.mem_map.mp hx
        exact distOf_mono lap.points hmono (Nat.zero_le cc) (hcb cc hcc)
      · rw [List.mem_singleton.mp hx]
        exact distOf_mono lap.points hmono (Nat.zero_le _) (by omega)
    · refine List.pairwise_append.mpr ⟨?_, List.pairwise_singleton _ _, ?_⟩
      · refine List.pairwise_map.mpr ?_
        refine (sectorCuts_sorted curv 3).imp_of_mem ?_
        intro a b hha hhb hab
        exact distOf_mono lap.points hmono hab (hcb b hhb)
      · intro x hx y hy
        obtain ⟨cc, hcc, rfl⟩ := List.mem_map.mp hx
        rw [List.mem_singleton.mp hy]
        exact distOf_mono lap.points hmono (by have := hcb cc hcc; omega) (by omega)
  obtain ⟨b, t, hbt⟩ : ∃ b t, ((sectorCuts curv 3).map (distOf lap.points)) ++
      [(lap.points.getLast?.map fun p => p.lap_distance_m).getD 0] = b :: t := by
    cases hm : (sectorCuts curv 3).map (distOf lap.points) with
    | nil =>
      exact ⟨(lap.points.getLast?.map fun p => p.lap_distance_m).getD 0, [], by simp [hm]⟩
    | cons m ms =>
      exact ⟨m, ms ++ [(lap.points.getLast?.map fun p => p.lap_distance_m).getD 0],
        by simp [hm]⟩
  have hds : (((lap.points.head?.map fun p => p.lap_distance_m).getD 0) ::
      (sectorCuts curv 3).map (distOf lap.points)) ++
      [(lap.points.getLast?.map fun p => p.lap_distance_m).getD 0]
      = ((lap.points.head?.map fun p => p.lap_distance_m).getD 0) :: b :: t := by
    rw [List.cons_append, hbt]
  refine ⟨?_, ?_, ?_, ?_, ?_⟩
  · rw [hsec, hds]
    simp [mkSectors]
  · rw [hsec]
    exact mkSectors_chain _
  · rw [hsec]
    exact mkSectors_le _ hpw.chain'
  · rw [hsec, hds, mkSectors_head, hpts]
    simp
  · rw [hsec, hds, mkSectors_last, ← hds, List.cons_append, ← List.cons_append,
      List.getLast?_concat, List.getLast?_eq_getElem?,
      List.getElem?_eq_getElem (show lap.points.length - 1 < lap.points.length by omega)]
    simp [hdN, distOf_eq lap.points (show lap.points.length - 1 < lap.points.length by omega),
      List.get_eq_getElem]

/-- C5: for every lap with at least one point and non-decreasing
lap_distance_m, build_track_map yields a polyline of the same length as the
points, a bbox containing every polyline point, corners whose 1-based index
equals position + 1, and sectors that are non-empty, consecutive (each
sector's end is the next sector's start), non-overlapping (start ≤ end),
starting at the first point's lap_distance_m and ending at the last
point's. -/
theorem C5_theorem (sq : ℚ → ℚ) (lap : Lap) (hne : lap.points ≠ [])
    (hmono : (lap.points.map fun p => p.lap_distance_m).Sorted (· ≤ ·)) :
    (build_track_map sq lap).polyline.length = lap.points.length ∧
    (∀ p ∈ (build_track_map sq lap).polyline,
      XQ.le (build_track_map sq lap).bbox.minx (XQ.fin p.x) ∧
      XQ.le (XQ.fin p.x) (build_track_map sq lap).bbox.maxx ∧
      XQ.le (build_track_map sq lap).bbox.miny (XQ.fin p.y) ∧
      XQ.le (XQ.fin p.y) (build_track_map sq lap).bbox.maxy) ∧
    (∀ (i : ℕ) (c : CornerLabel),
      (build_track_map sq lap).corners[i]? = some c → c.index = i + 1) ∧
    (build_track_map sq lap).sectors ≠ [] ∧
    List.Chain' (fun s t => s.end_m = t.start_m) (build_track_map sq lap).sectors ∧
    (∀ s ∈ (build_track_map sq lap).sectors, s.start_m ≤ s.end_m) ∧
    ((build_track_map sq lap).sectors.head?.map fun s => s.start_m)
      = (lap.points.head?.map fun p => p.lap_distance_m) ∧
    ((build_track_map sq lap).sectors.getLast?.map fun s => s.end_m)
      = (lap.points.getLast?.map fun p => p.lap_distance_m) := by
  have hcl : (curvature_series sq lap.points).length = lap.points.length :=
    curvature_series_length sq lap.points
  obtain ⟨hne2, hchain, hle, hhead, hlast⟩ :=
    auto_sectors_spec lap (curvature_series sq lap.points) hne hmono hcl
  refine ⟨?_, ?_, ?_, hne2, hchain, hle, hhead, hlast⟩
  · simp [build_track_map]
  · intro p hp
    exact bbox_foldl_mem _ _ p hp
  · intro i c hc
    have hb : ∀ x ∈ peak_indices (curvature_series sq lap.points) 12 (3 / 100),
        x < lap.points.length :=
      fun x hx => hcl ▸ peak_indices_lt_length _ 12 _ x hx
    have hr := cornersAux lap.points
      (peak_indices (curvature_series sq lap.points) 12 (3 / 100)) 0 hb i c hc
    omega

/-- C5 witness: the theorem applied to a one-point lap. -/
theorem C5_witness :
    (build_track_map sq0 lap1pt).polyline.length = lap1pt.points.length ∧
    (∀ p ∈ (build_track_map sq0 lap1pt).polyline,
      XQ.le (build_track_map sq0 lap1pt).bbox.minx (XQ.fin p.x) ∧
      XQ.le (XQ.fin p.x) (build_track_map sq0 lap1pt).bbox.maxx ∧
      XQ.le (build_track_map sq0 lap1pt).bbox.miny (XQ.fin p.y) ∧
      XQ.le (XQ.fin p.y) (build_track_map sq0 lap1pt).bbox.maxy) ∧
    (∀ (i : ℕ) (c : CornerLabel),
      (build_track_map sq0 lap1pt).corners[i]? = some c → c.index = i + 1) ∧
    (build_track_map sq0 lap1pt).sectors ≠ [] ∧
    List.Chain' (fun s t => s.end_m = t.start_m) (build_track_map sq0 lap1pt).sectors ∧
    (∀ s ∈ (build_track_map sq0 lap1pt).sectors, s.start_m ≤ s.end_m) ∧
    ((build_track_map sq0 lap1pt).sectors.head?.map fun s => s.start_m)
      = (lap1pt.points.head?.map fun p => p.lap_distance_m) ∧
    ((build_track_map sq0 lap1pt).sectors.getLast?.map fun s => s.end_m)
      = (lap1pt.points.getLast?.map fun p => p.lap_distance_m) :=
  C5_theorem sq0 lap1pt (by with_unfolding_all decide) (by with_unfolding_all decide)

/-- The closed form of the d = 0.0; while d <= max_len { ...; d += 1.0 }
loop grids of the analysis kernel: the number of integer grid points. -/
def gridCount (maxLen : ℚ) : ℕ := if maxLen < 0 then 0 else (⌊maxLen⌋).toNat + 1

/-- crates/analysis: the scan of sample_speed_at_distance — running best
speed with best distance bd starting at f64::INFINITY. -/
def sampleLoop (d : ℚ) : List TelemetryPoint → ℚ → XQ → ℚ
  | [], best, _ => best
  | p :: rest, best, bd =>
    if XQ.ltB (XQ.fin |p.lap_distance_m - d|) bd then
      sampleLoop d rest p.speed_kph (XQ.fin |p.lap_distance_m - d|)
    else sampleLoop d rest best bd

/-- crates/analysis: sample_speed_at_distance. -/
def sample_speed_at_distance (lap : Lap) (d : ℚ) : ℚ :=
  match lap.points with
  | [] => 0
  | p0 :: _ => sampleLoop d lap.points p0.speed_kph XQ.inf

/-- crates/analysis: the scan of time_at_distance (best_t starts at the
last point's t_ms). -/
def timeLoop (d : ℚ) : List TelemetryPoint → ℚ → XQ → ℚ
  | [], best, _ => best
  | p :: rest, best, bd =>
    if XQ.ltB (XQ.fin |p.lap_distance_m - d|) bd then
      timeLoop d rest p.t_ms (XQ.fin |p.lap_distance_m - d|)
    else timeLoop d rest best bd

/-- crates/analysis: time_at_distance = nearest t minus the first point's t. -/
def time_at_distance (lap : Lap) (d : ℚ) : ℚ :=
  if lap.points = [] then 0
  else
    timeLoop d lap.points ((lap.points.getLast?.map fun p => p.t_ms).getD 0) XQ.inf
      - ((lap.points.head?.map fun p => p.t_ms).getD 0)

/-- One overlay row: the distance value and the speed_<lap id> entries of
the JSON object (keys abstracted to the lap id). -/
structure OverlayRow where
  distance : ℚ
  speeds : List (ℕ × ℚ)
deriving DecidableEq

/-- serde_json Map::insert on an association list: overwrite the existing
binding for the key or append a new one. -/
def upsert : List (ℕ × ℚ) → ℕ → ℚ → List (ℕ × ℚ)
  | [], k, v => [(k, v)]
  | (k0, v0) :: rest, k, v =>
    if k0 = k then (k, v) :: rest else (k0, v0) :: upsert rest k v

/-- crates/analysis: max_len of overlay_speed_vs_distance — fold of the
last-point distances with f64::max from 0.0. -/
def overlayMaxLen (laps : List Lap) : ℚ :=
  (laps.filterMap fun l => l.points.getLast?.map fun p => p.lap_distance_m).foldl max 0

/-- crates/analysis: overlay_speed_vs_distance. -/
def overlay_speed_vs_distance (laps : List Lap) : List OverlayRow :=
  (List.range (gridCount (overlayMaxLen laps))).map fun (k : ℕ) =>
    { distance := (k : ℚ),
      speeds := laps.foldl
        (fun m lap => upsert m lap.id (sample_speed_at_distance lap (k : ℚ))) [] }

/-- One delta-ribbon row. -/
structure DeltaRow where
  distance : ℚ
  delta_ms : ℚ
deriving DecidableEq

/-- crates/analysis: rolling_delta_vs_reference. -/
def rolling_delta_vs_reference (reference : Lap) (laps : List Lap) : List DeltaRow :=
  (List.range (gridCount
      ((reference.points.getLast?.map fun p => p.lap_distance_m).getD 0))).map fun (k : ℕ) =>
    let t_ref := time_at_distance reference (k : ℚ)
    let dc := laps.foldl
      (fun (acc : ℚ × ℚ) lap =>
        if lap.id = reference.id then acc
        else (acc.1 + (time_at_distance lap (k : ℚ) - t_ref), acc.2 + 1))
      ((0 : ℚ), (0 : ℚ))
    { distance := (k : ℚ), delta_ms := if 0 < dc.2 then dc.1 / dc.2 else dc.1 }

/-- C7: comparing a reference lap only against itself produces one row per
integer distance d = 0 .. floor(last point's lap_distance_m), each with
delta_ms = 0 (the single lap is skipped by the id check, so no peer ever
contributes and the accumulator stays zero). -/
theorem C7_theorem (R : Lap) (hne : R.points ≠ [])
    (hpos : 0 ≤ (R.points.getLast?.map fun p => p.lap_distance_m).getD 0) :
    (rolling_delta_vs_reference R [R]).length
      = (⌊(R.points.getLast?.map fun p => p.lap_distance_m).getD 0⌋).toNat + 1 ∧
    (∀ k, k < (rolling_delta_vs_reference R [R]).length →
      ((rolling_delta_vs_reference R [R])[k]?).map (fun r => r.distance) = some (k : ℚ)) ∧
    (∀ row ∈ rolling_delta_vs_reference R [R], row.delta_ms = 0) := by
  have hgc : gridCount ((R.points.getLast?.map fun p => p.lap_distance_m).getD 0)
      = (⌊(R.points.getLast?.map fun p => p.lap_distance_m).getD 0⌋).toNat + 1 := by
    unfold gridCount
    rw [if_neg (not_lt.mpr hpos)]
  refine ⟨?_, ?_, ?_⟩
  · rw [rolling_delta_vs_reference, List.length_map, List.length_range, hgc]
  · intro k hk
    rw [rolling_delta_vs_reference, List.length_map, List.length_range] at hk
    rw [rolling_delta_vs_reference, List.getElem?_map, List.getElem?_range hk]
    simp
  · intro row hrow
    simp only [rolling_delta_vs_reference, List.mem_map, List.mem_range] at hrow
    obtain ⟨k, hk, hrow⟩ := hrow
    rw [← hrow]
    simp

/-- A one-point reference lap for the C7 witness. -/
def lapRef : Lap :=
  { id := 40, meta := { id := 41, game := "test", car := "car", track := "track", lap_number := 1 },
    total_time_ms := 0, points := [mkPt 0] }

/-- C7 witness: the theorem applied to a concrete one-point lap. -/
theorem C7_witness :
    (rolling_delta_vs_reference lapRef [lapRef]).length
      = (⌊(lapRef.points.getLast?.map fun p => p.lap_distance_m).getD 0⌋).toNat + 1 ∧
    (∀ k, k < (rolling_delta_vs_reference lapRef [lapRef]).length →
      ((rolling_delta_vs_reference lapRef [lapRef])[k]?).map (fun r => r.distance)
        = some (k : ℚ)) ∧
    (∀ row ∈ rolling_delta_vs_reference lapRef [lapRef], row.delta_ms = 0) :=
  C7_theorem lapRef (by with_unfolding_all decide) (by with_unfolding_all decide)

theorem foldl_max_nonneg : ∀ (l : List ℚ) (a : ℚ), 0 ≤ a → 0 ≤ l.foldl max a
  | [], _, h => h
  | x :: rest, a, h => foldl_max_nonneg rest (max a x) (le_trans h (le_max_left a x))

theorem overlayMaxLen_nonneg (laps : List Lap) : 0 ≤ overlayMaxLen laps :=
  foldl_max_nonneg _ 0 le_rfl

theorem upsert_append : ∀ (m : List (ℕ × ℚ)) (k : ℕ) (v : ℚ),
    (∀ kv ∈ m, kv.1 ≠ k) → upsert m k v = m ++ [(k, v)]
  | [], _, _, _ => rfl
  | (k0, v0) :: rest, k, v, h => by
    rw [upsert, if_neg (h (k0, v0) (List.mem_cons_self _ _)),
      upsert_append rest k v (fun kv hkv => h kv (List.mem_cons_of_mem _ hkv))]
    simp

theorem foldl_upsert_eq (v : Lap → ℚ) :
    ∀ (laps : List Lap) (m : List (ℕ × ℚ)),
      (laps.map fun l => l.id).Nodup →
      (∀ l ∈ laps, ∀ kv ∈ m, kv.1 ≠ l.id) →
      laps.foldl (fun m lap => upsert m lap.id (v lap)) m
        = m ++ laps.map fun l => (l.id, v l)
  | [], m, _, _ => by simp
  | l0 :: rest, m, hnd, hm => by
    have hnd2 : (∀ x ∈ rest, ¬x.id = l0.id) ∧ (rest.map fun l => l.id).Nodup := by
      simpa using hnd
    rw [List.foldl_cons,
      upsert_append m l0.id (v l0) (fun kv hkv => hm l0 (List.mem_cons_self _ _) kv hkv),
      foldl_upsert_eq v rest (m ++ [(l0.id, v l0)]) hnd2.2 ?_]
    · simp
    · intro l hl kv hkv
      rcases List.mem_append.mp hkv with hkv | hkv
      · exact hm l (List.mem_cons_of_mem _ hl) kv hkv
      · rw [List.mem_singleton.mp hkv]
        intro heq
        exact hnd2.1 l hl heq.symm

theorem lookup_map_nodup (v : Lap → ℚ) :
    ∀ (laps : List Lap), (laps.map fun l => l.id).Nodup →
      ∀ l ∈ laps, List.lookup l.id (laps.map fun l2 => (l2.id, v l2)) = some (v l)
  | [], _, l, hl => absurd hl (List.not_mem_nil l)
  | l0 :: rest, hnd, l, hl => by
    have hnd2 : (∀ x ∈ rest, ¬x.id = l0.id) ∧ (rest.map fun l => l.id).Nodup := by
      simpa using hnd
    rw [List.map_cons]
    rcases List.mem_cons.mp hl with rfl | hmem
    · simp [List.lookup]
    · have hne : (l.id == l0.id) = false := by
        simp only [beq_eq_false_iff_ne, ne_eq]
        exact hnd2.1 l hmem
      rw [List.lookup, hne]
      exact lookup_map_nodup v rest hnd2.2 l hmem

theorem sampleLoop_spec (d : ℚ) :
    ∀ (pts : List TelemetryPoint) (best b : ℚ),
      (sampleLoop d pts best (XQ.fin b) = best ∧
        ∀ j, j < pts.length → b ≤ |(pts.getD j (mkPt 0)).lap_distance_m - d|) ∨
      (∃ i, i < pts.length ∧
        sampleLoop d pts best (XQ.fin b) = (pts.getD i (mkPt 0)).speed_kph ∧
        |(pts.getD i (mkPt 0)).lap_distance_m - d| < b ∧
        (∀ j, j < pts.length →
          |(pts.getD i (mkPt 0)).lap_distance_m - d|
            ≤ |(pts.getD j (mkPt 0)).lap_distance_m - d|) ∧
        (∀ j, j < pts.length → j < i →
          |(pts.getD i (mkPt 0)).lap_distance_m - d|
            < |(pts.getD j (mkPt 0)).lap_distance_m - d|))
  | [], best, b => Or.inl ⟨rfl, fun j hj => absurd hj (by simp)⟩
  | p :: rest, best, b => by
    rw [sampleLoop]
    by_cases hc : |p.lap_distance_m - d| < b
    · rw [if_pos (by simp [XQ.ltB, hc])]
      rcases sampleLoop_spec d rest p.speed_kph |p.lap_distance_m - d| with
        ⟨heq, hall⟩ | ⟨i, hi, heq, hlt, hmin, hstrict⟩
      · refine Or.inr ⟨0, by simp, by simpa using heq, by simpa using hc, ?_, ?_⟩
        · intro j hj
          cases j with
          | zero => simp
          | succ j =>
            have hh := hall j (by simpa using hj)
            simpa using hh
        · intro j hj hjlt
          exact absurd hjlt (Nat.not_lt_zero j)
      · refine Or.inr ⟨i + 1, by simpa using hi, ?_, ?_, ?_, ?_⟩
        · simpa using heq
        · simp only [List.getD_cons_succ]
          linarith
        · intro j hj
          cases j with
          | zero =>
            simp only [List.getD_cons_succ, List.getD_cons_zero]
            linarith
          | succ j =>
            have hh := hmin j (by simpa using hj)
            simpa using hh
        · intro j hj hjlt
          cases j with
          | zero =>
            simp only [List.getD_cons_succ, List.getD_cons_zero]
            linarith
          | succ j =>
            have hh := hstrict j (by simpa using hj) (by omega)
            simpa using hh
    · rw [if_neg (by simp [XQ.ltB, hc])]
      have hge : b ≤ |p.lap_distance_m - d| := not_lt.mp hc
      rcases sampleLoop_spec d rest best b with
        ⟨heq, hall⟩ | ⟨i, hi, heq, hlt, hmin, hstrict⟩
      · refine Or.inl ⟨heq, ?_⟩
        intro j hj
        cases j with
        | zero => simpa using hge
        | succ j =>
          have hh := hall j (by simpa using hj)
          simpa using hh
      · refine Or.inr ⟨i + 1, by simpa using hi, ?_, ?_, ?_, ?_⟩
        · simpa using heq
        · simp only [List.getD_cons_succ]
          linarith
        · intro j hj
          cases j with
          | zero =>
            simp only [List.getD_cons_succ, List.getD_cons_zero]
            linarith
          | succ j =>
            have hh := hmin j (by simpa using hj)
            simpa using hh
        · intro j hj hjlt
          cases j with
          | zero =>
            simp only [List.getD_cons_succ, List.getD_cons_zero]
            linarith
          | succ j =>
            have hh := hstrict j (by simpa using hj) (by omega)
            simpa using hh

theorem sample_speed_spec (lap : Lap) (d : ℚ) (hne : lap.points ≠ []) :
    ∃ i, i < lap.points.length ∧
      sample_speed_at_distance lap d = (lap.points.getD i (mkPt 0)).speed_kph ∧
      (∀ j, j < lap.points.length →
        |(lap.points.getD i (mkPt 0)).lap_distance_m - d|
          ≤ |(lap.points.getD j (mkPt 0)).lap_distance_m - d|) ∧
      (∀ j, j < lap.points.length → j < i →
        |(lap.points.getD i (mkPt 0)).lap_distance_m - d|
          < |(lap.points.getD j (mkPt 0)).lap_distance_m - d|) := by
  obtain ⟨p0, rest, hpts⟩ : ∃ p0 rest, lap.points = p0 :: rest := by
    cases hp : lap.points with
    | nil => exact absurd hp hne
    | cons a l => exact ⟨a, l, rfl⟩
  have hun : sample_speed_at_distance lap d
      = sampleLoop d rest p0.speed_kph (XQ.fin |p0.lap_distance_m - d|) := by
    unfold sample_speed_at_distance
    rw [hpts]
    show sampleLoop d (p0 :: rest) p0.speed_kph XQ.inf = _
    rw [sampleLoop, if_pos (show XQ.ltB (XQ.fin |p0.lap_distance_m - d|) XQ.inf = true from rfl)]
  rw [hpts]
  rcases sampleLoop_spec d rest p0.speed_kph |p0.lap_distance_m - d| with
    ⟨heq, hall⟩ | ⟨i, hi, heq, hlt, hmin, hstrict⟩
  · refine ⟨0, by simp, by rw [hun, heq]; simp, ?_, ?_⟩
    · intro j hj
      cases j with
      | zero => simp
      | succ j =>
        have hh := hall j (by simpa using hj)
        simpa using hh
    · intro j hj hjlt
      exact absurd hjlt (Nat.not_lt_zero j)
  · refine ⟨i + 1, by simpa using hi, by rw [hun]; simpa using heq, ?_, ?_⟩
    · intro j hj
      cases j with
      | zero =>
        simp only [List.getD_cons_succ, List.getD_cons_zero]
        linarith
      | succ j =>
        have hh := hmin j (by simpa using hj)
        simpa using hh
    · intro j hj hjlt
      cases j with
      | zero =>
        simp only [List.getD_cons_succ, List.getD_cons_zero]
        linarith
      | succ j =>
        have hh := hstrict j (by simpa using hj) (by omega)
        simpa using hh

/-- An overlay test point at the given lap distance and speed. -/
def ovPt (dist speed : ℚ) : TelemetryPoint :=
  { t_ms := 0, lap_distance_m := dist, x := 0, y := 0, speed_kph := speed,
    throttle := 0, brake := 0, gear := 0, rpm := 0 }

/-- Overlay scenario lap L1: points (dist 0, speed 100), (dist 50, speed 120). -/
def lapL1 : Lap :=
  { id := 1, meta := { id := 2, game := "test", car := "car", track := "track", lap_number := 1 },
    total_time_ms := 0, points := [ovPt 0 100, ovPt 50 120] }

/-- Overlay scenario lap L2: same points as L1, different id. -/
def lapL2 : Lap :=
  { id := 2, meta := { id := 3, game := "test", car := "car", track := "track", lap_number := 2 },
    total_time_ms := 0, points := [ovPt 0 100, ovPt 50 120] }

/-- C6: for a non-empty lap list (all laps non-empty, distinct ids) the
overlay emits exactly one row per integer distance 0 .. floor(max_len) with
no gaps; every row holds one speed entry per input lap whose value is the
speed of the first point minimizing the distance gap (ties kept by the
first point); and on the concrete two-lap scenario the output has 51 rows
with rows 0/25/50 reporting (100,100), (100,100) and (120,120). -/
theorem C6_theorem (laps : List Lap) (hne : laps ≠ [])
    (hpts : ∀ l ∈ laps, l.points ≠ [])
    (hids : (laps.map fun l => l.id).Nodup) :
    ((overlay_speed_vs_distance laps).length = (⌊overlayMaxLen laps⌋).toNat + 1) ∧
    (∀ k, k < (overlay_speed_vs_distance laps).length →
      ((overlay_speed_vs_distance laps)[k]?).map (fun r => r.distance) = some (k : ℚ)) ∧
    (∀ k, k < (overlay_speed_vs_distance laps).length →
      ((overlay_speed_vs_distance laps)[k]?).map (fun r => r.speeds.length)
        = some laps.length) ∧
    (∀ k, k < (overlay_speed_vs_distance laps).length → ∀ l ∈ laps,
      ((overlay_speed_vs_distance laps)[k]?).map (fun r => List.lookup l.id r.speeds)
        = some (some (sample_speed_at_distance l (k : ℚ)))) ∧
    (∀ l ∈ laps, ∀ d : ℚ, ∃ i, i < l.points.length ∧
      sample_speed_at_distance l d = (l.points.getD i (mkPt 0)).speed_kph ∧
      (∀ j, j < l.points.length →
        |(l.points.getD i (mkPt 0)).lap_distance_m - d|
          ≤ |(l.points.getD j (mkPt 0)).lap_distance_m - d|) ∧
      (∀ j, j < l.points.length → j < i →
        |(l.points.getD i (mkPt 0)).lap_distance_m - d|
          < |(l.points.getD j (mkPt 0)).lap_distance_m - d|)) ∧
    ((overlay_speed_vs_distance [lapL1, lapL2]).length = 51 ∧
     ((overlay_speed_vs_distance [lapL1, lapL2])[25]?).map
        (fun r => (List.lookup 1 r.speeds, List.lookup 2 r.speeds))
        = some (some 100, some 100) ∧
     ((overlay_speed_vs_distance [lapL1, lapL2])[0]?).map
        (fun r => (List.lookup 1 r.speeds, List.lookup 2 r.speeds))
        = some (some 100, some 100) ∧
     ((overlay_speed_vs_distance [lapL1, lapL2])[50]?).map
        (fun r => (List.lookup 1 r.speeds, List.lookup 2 r.speeds))
        = some (some 120, some 120)) := by
  have hgc : gridCount (overlayMaxLen laps) = (⌊overlayMaxLen laps⌋).toNat + 1 := by
    unfold gridCount
    rw [if_neg (not_lt.mpr (overlayMaxLen_nonneg laps))]
  have hfold : ∀ k : ℕ,
      (laps.foldl (fun m lap => upsert m lap.id (sample_speed_at_distance lap (k : ℚ))) [])
        = laps.map fun l => (l.id, sample_speed_at_distance l (k : ℚ)) := by
    intro k
    have hf := foldl_upsert_eq (fun l => sample_speed_at_distance l (k : ℚ)) laps [] hids
      (fun l hl kv hkv => absurd hkv (List.not_mem_nil kv))
    simpa using hf
  refine ⟨?_, ?_, ?_, ?_, ?_, ?_⟩
  · rw [overlay_speed_vs_distance, List.length_map, List.length_range, hgc]
  · intro k hk
    rw [overlay_speed_vs_distance, List.length_map, List.length_range] at hk
    rw [overlay_speed_vs_distance, List.getElem?_map, List.getElem?_range hk]
    simp
  · intro k hk
    rw [overlay_speed_vs_distance, List.length_map, List.length_range] at hk
    rw [overlay_speed_vs_distance, List.getElem?_map, List.getElem?_range hk]
    simp [hfold k]
  · intro k hk l hl
    rw [overlay_speed_vs_distance, List.length_map, List.length_range] at hk
    rw [overlay_speed_vs_distance, List.getElem?_map, List.getElem?_range hk]
    have hlk := lookup_map_nodup (fun l2 => sample_speed_at_distance l2 (k : ℚ)) laps hids l hl
    simp [hfold k, hlk]
  · intro l hl d
    exact sample_speed_spec l d (hpts l hl)
  · refine ⟨?_, ?_, ?_, ?_⟩
    · with_unfolding_all decide
    · with_unfolding_all decide
    · with_unfolding_all decide
    · with_unfolding_all decide

/-- C6 witness: the theorem applied to the concrete two-lap scenario. -/
theorem C6_witness :
    ((overlay_speed_vs_distance [lapL1, lapL2]).length
      = (⌊overlayMaxLen [lapL1, lapL2]⌋).toNat + 1) ∧
    (∀ k, k < (overlay_speed_vs_distance [lapL1, lapL2]).length →
      ((overlay_speed_vs_distance [lapL1, lapL2])[k]?).map (fun r => r.distance)
        = some (k : ℚ)) ∧
    (∀ k, k < (overlay_speed_vs_distance [lapL1, lapL2]).length →
      ((overlay_speed_vs_distance [lapL1, lapL2])[k]?).map (fun r => r.speeds.length)
        = some ([lapL1, lapL2] : List Lap).length) ∧
    (∀ k, k < (overlay_speed_vs_distance [lapL1, lapL2]).length →
      ∀ l ∈ ([lapL1, lapL2] : List Lap),
      ((overlay_speed_vs_distance [lapL1, lapL2])[k]?).map
          (fun r => List.lookup l.id r.speeds)
        = some (some (sample_speed_at_distance l (k : ℚ)))) ∧
    (∀ l ∈ ([lapL1, lapL2] : List Lap), ∀ d : ℚ, ∃ i, i < l.points.length ∧
      sample_speed_at_distance l d = (l.points.getD i (mkPt 0)).speed_kph ∧
      (∀ j, j < l.points.length →
        |(l.points.getD i (mkPt 0)).lap_distance_m - d|
          ≤ |(l.points.getD j (mkPt 0)).lap_distance_m - d|) ∧
      (∀ j, j < l.points.length → j < i →
        |(l.points.getD i (mkPt 0)).lap_distance_m - d|
          < |(l.points.getD j (mkPt 0)).lap_distance_m - d|)) ∧
    ((overlay_speed_vs_distance [lapL1, lapL2]).length = 51 ∧
     ((overlay_speed_vs_distance [lapL1, lapL2])[25]?).map
        (fun r => (List.lookup 1 r.speeds, List.lookup 2 r.speeds))
        = some (some 100, some 100) ∧
     ((overlay_speed_vs_distance [lapL1, lapL2])[0]?).map
        (fun r => (List.lookup 1 r.speeds, List.lookup 2 r.speeds))
        = some (some 100, some 100) ∧
     ((overlay_speed_vs_distance [lapL1, lapL2])[50]?).map
        (fun r => (List.lookup 1 r.speeds, List.lookup 2 r.speeds))
        = some (some 120, some 120)) :=
  C6_theorem [lapL1, lapL2] (by with_unfolding_all decide)
    (by with_unfolding_all decide) (by with_unfolding_all decide)

/-- apps/desktop/src-tauri/src/session.rs: new_lap (Uuid::new_v4 modelled
by a counter: the lap takes id nid and its meta takes nid + 1). -/
def newLap (game car track : String) (num : ℕ) (nid : ℕ) : Lap :=
  { id := nid,
    meta := { id := nid + 1, game := game, car := car, track := track, lap_number := num },
    total_time_ms := 0, points := [] }

/-- session.rs: LapBuilder. -/
structure LapBuilder where
  current : Option Lap
  last : Option TelemetrySample
  start_pos : Option (ℚ × ℚ)
  cum_dist : ℚ
  last_t_ms : ℚ
  track_guess_m : ℚ
deriving DecidableEq

/-- session.rs: LapBuilder::new. -/
def LapBuilder.new (game car track : String) (nid : ℕ) : LapBuilder :=
  { current := some (newLap game car track 1 nid), last := none, start_pos := none,
    cum_dist := 0, last_t_ms := 0, track_guess_m := 0 }

/-- session.rs: the session state Inner (lap store as an insertion-ordered
list, since every inserted lap id is fresh; builders keyed by source). -/
structure Inner where
  laps : List Lap
  builders : List (String × LapBuilder)
  nextId : ℕ
deriving DecidableEq

/-- A fresh session state. -/
def innerInit : Inner := { laps := [], builders := [], nextId := 100 }

/-- HashMap insert for the builders map. -/
def insertB : List (String × LapBuilder) → String → LapBuilder → List (String × LapBuilder)
  | [], k, b => [(k, b)]
  | (k0, b0) :: rest, k, b =>
    if k0 = k then (k, b) :: rest else (k0, b0) :: insertB rest k b

/-- session.rs lines 93-109: the rollover decision of Inner::feed_sample,
evaluated after the current sample's point has been pushed (cur is the
post-push lap).  Branch 1 is the explicit lap-number increase, branch 2 the
start-line heuristic; sq abstracts f64::sqrt. -/
def rollDecision (sq : ℚ → ℚ) (last : Option TelemetrySample) (startPos : Option (ℚ × ℚ))
    (cur : Option Lap) (s : TelemetrySample) (t_ms : ℚ) : Bool :=
  (match last with
   | some l => decide (l.current_lap < s.current_lap) && decide (0 < s.current_lap)
   | none => false) ||
  (match startPos, cur with
   | some sp, some lap =>
     let dx := s.world_pos_x - sp.1
     let dy := s.world_pos_z - sp.2
     let dd := sq (dx * dx + dy * dy)
     decide (dd < 20) &&
     decide (t_ms - ((lap.points.head?.map fun p => p.t_ms).getD t_ms) > 15000) &&
     decide (s.speed_mps > 1)
   | _, _ => false)

/-- session.rs: Inner::feed_sample.  Mirrors the source step by step:
builder lookup/creation, lazy start_pos, lap-distance bookkeeping, point
push with running total_time_ms, rollover (via rollDecision), lap-store
insert, new-lap opening, and the final last/last_t_ms update. -/
def feed_sample (sq : ℚ → ℚ) (inner : Inner) (key : String) (s : TelemetrySample) : Inner :=
  let game := gameStr s.game
  let bn : LapBuilder × ℕ :=
    match List.lookup key inner.builders with
    | some b => (b, inner.nextId)
    | none => (LapBuilder.new game "Unknown" "Unknown" inner.nextId, inner.nextId + 2)
  let b0 := bn.1
  let nid0 := bn.2
  let posx := s.world_pos_x
  let posy := s.world_pos_z
  let b1 := if b0.start_pos = none ∧ s.speed_mps > 1 / 10
    then { b0 with start_pos := some (posx, posy) } else b0
  let t_ms := s.sim_time_s * 1000
  let ld : ℚ × LapBuilder :=
    if s.lap_distance_m ≤ 0 then
      match b1.last with
      | some lastS =>
        let dx := s.world_pos_x - lastS.world_pos_x
        let dy := s.world_pos_z - lastS.world_pos_z
        let b2 := { b1 with cum_dist := b1.cum_dist + sq (dx * dx + dy * dy) }
        (b2.cum_dist, b2)
      | none => (b1.cum_dist, b1)
    else (s.lap_distance_m, { b1 with cum_dist := s.lap_distance_m })
  let lap_dist := ld.1
  let b2 := ld.2
  let b3 :=
    match b2.current with
    | some lap =>
      let newPt : TelemetryPoint :=
        { t_ms := t_ms, lap_distance_m := lap_dist, x := posx, y := posy,
          speed_kph := s.speed_mps * (18 / 5), throttle := s.throttle, brake := s.brake,
          gear := s.gear, rpm := s.engine_rpm }
      let pts := lap.points ++ [newPt]
      let lap2 : Lap :=
        { lap with
            points := pts
            total_time_ms := ratToU64 (t_ms - ((pts.head?.map fun p => p.t_ms).getD t_ms)) }
      { b2 with current := some lap2 }
    | none => b2
  let roll := rollDecision sq b3.last b3.start_pos b3.current s t_ms
  let rlb : LapBuilder × List Lap × ℕ :=
    if roll then
      match b3.current with
      | some finished =>
        let fin2 : Lap :=
          { finished with
              total_time_ms :=
                ratToU64 (t_ms - ((finished.points.head?.map fun p => p.t_ms).getD t_ms)) }
        let lastd := (fin2.points.getLast?.map fun p => p.lap_distance_m).getD 0
        let b4 := if lastd > b3.track_guess_m then { b3 with track_guess_m := lastd } else b3
        let b5 : LapBuilder :=
          { b4 with
              current := some (newLap game "Unknown" "Unknown" (max s.current_lap 1) nid0)
              cum_dist := 0 }
        (b5, inner.laps ++ [fin2], nid0 + 2)
      | none => (b3, inner.laps, nid0)
    else (b3, inner.laps, nid0)
  let b5 := { rlb.1 with last := some s, last_t_ms := t_ms }
  { laps := rlb.2.1, builders := insertB inner.builders key b5, nextId := rlb.2.2 }

/-- Feed a list of (source key, sample) pairs through the builder. -/
def runFeed (sq : ℚ → ℚ) (inner : Inner) (samples : List (String × TelemetrySample)) : Inner :=
  samples.foldl (fun st ks => feed_sample sq st ks.1 ks.2) inner

/-- A C1 scenario sample: the given current_lap at the given sim time,
speed 0 (so start_pos is never set and the heuristic never fires),
lap_distance_m 1 (so the positive-distance branch is taken). -/
def mkC1Sample (lapNo : ℕ) (t : ℚ) : TelemetrySample :=
  { game := Game.LMU, car_id := "player:0", session_uid := "lmu", frame := 0,
    sim_time_s := t, speed_mps := 0, throttle := 0, brake := 0, gear := 0, engine_rpm := 0,
    world_pos_x := 0, world_pos_y := 0, world_pos_z := 0, yaw := 0, pitch := 0, roll := 0,
    lap_distance_m := 1, current_lap := lapNo, current_lap_time_s := 0, last_lap_time_s := 0 }

/-- The C1 feed: 100 samples with current_lap = 1, then one sample with
current_lap = 2 at sim_time_s = 45. -/
def c1Samples : List (String × TelemetrySample) :=
  ((List.range 100).map fun (i : ℕ) => ("src", mkC1Sample 1 ((i : ℚ) / 10)))
    ++ [("src", mkC1Sample 2 45)]

theorem mem_insertB : ∀ (l : List (String × LapBuilder)) (k : String) (v : LapBuilder) (x),
    x ∈ insertB l k v → x = (k, v) ∨ x ∈ l
  | [], k, v, x => by
    intro hx
    rw [insertB] at hx
    exact Or.inl (List.mem_singleton.mp hx)
  | (k0, b0) :: rest, k, v, x => by
    intro hx
    rw [insertB] at hx
    split_ifs at hx with h
    · rcases List.mem_cons.mp hx with rfl | hx
      · exact Or.inl rfl
      · exact Or.inr (List.mem_cons_of_mem _ hx)
    · rcases List.mem_cons.mp hx with rfl | hx
      · exact Or.inr (List.mem_cons_self _ _)
      · rcases mem_insertB rest k v x hx with h2 | h2
        · exact Or.inl h2
        · exact Or.inr (List.mem_cons_of_mem _ h2)

theorem lookup_mem {l : List (String × LapBuilder)} {k : String} {b : LapBuilder}
    (h : List.lookup k l = some b) : (k, b) ∈ l := by
  obtain ⟨l₁, l₂, rfl, -⟩ := List.lookup_eq_some_iff.mp h
  simp

theorem rollDecision_sq_indep (sq₁ sq₂ : ℚ → ℚ) (last : Option TelemetrySample)
    (cur : Option Lap) (s : TelemetrySample) (t_ms : ℚ) :
    rollDecision sq₁ last none cur s t_ms = rollDecision sq₂ last none cur s t_ms := by
  cases last <;> cases cur <;> rfl

theorem feed_sample_sq_indep (sq₁ sq₂ : ℚ → ℚ) (st : Inner) (key : String)
    (s : TelemetrySample)
    (hdist : ¬ s.lap_distance_m ≤ 0) (hspeed : ¬ s.speed_mps > 1 / 10)
    (hsp : ∀ x ∈ st.builders, x.2.start_pos = none) :
    feed_sample sq₁ st key s = feed_sample sq₂ st key s := by
  have hsp2 : (s.speed_mps > 1 / 10) = False := eq_false hspeed
  have hd2 : (s.lap_distance_m ≤ 0) = False := eq_false hdist
  unfold feed_sample
  cases hlk : List.lookup key st.builders with
  | none =>
    simp only [hlk, hsp2, and_false, if_false, hd2, LapBuilder.new, newLap]
    rw [rollDecision_sq_indep sq₁ sq₂]
  | some b =>
    have hb0 : b.start_pos = none := hsp (key, b) (lookup_mem hlk)
    simp only [hlk, hsp2, and_false, if_false, hd2, hb0]
    cases hbc : b.current with
    | some lap =>
      simp only [hbc]
      rw [rollDecision_sq_indep sq₁ sq₂]
    | none =>
      simp only [hbc]
      rw [rollDecision_sq_indep sq₁ sq₂]

theorem feed_sample_builders (sq : ℚ → ℚ) (st : Inner) (key : String) (s : TelemetrySample)
    (hspeed : ¬ s.speed_mps > 1 / 10)
    (hsp : ∀ x ∈ st.builders, x.2.start_pos = none) :
    ∀ x ∈ (feed_sample sq st key s).builders, x.2.start_pos = none := by
  have hsp2 : (s.speed_mps > 1 / 10) = False := eq_false hspeed
  intro x hx
  unfold feed_sample at hx
  cases hlk : List.lookup key st.builders with
  | none =>
    simp only [hlk, hsp2, and_false, if_false, LapBuilder.new, newLap] at hx
    rcases mem_insertB _ _ _ x hx with rfl | hmem
    · repeat' split
      all_goals simp
    · exact hsp x hmem
  | some b =>
    have hb0 : b.start_pos = none := hsp (key, b) (lookup_mem hlk)
    simp only [hlk, hsp2, and_false, if_false] at hx
    rcases mem_insertB _ _ _ x hx with rfl | hmem
    · repeat' split
      all_goals simp [hb0]
    · exact hsp x hmem

theorem runFeed_sq_indep (sq : ℚ → ℚ) :
    ∀ (samples : List (String × TelemetrySample)) (st : Inner),
      (∀ ks ∈ samples, ¬ ks.2.lap_distance_m ≤ 0 ∧ ¬ ks.2.speed_mps > 1 / 10) →
      (∀ x ∈ st.builders, x.2.start_pos = none) →
      runFeed sq st samples = runFeed sq0 st samples
  | [], _, _, _ => rfl
  | ks :: rest, st, hcond, hsp => by
    have hc0 := hcond ks (List.mem_cons_self ks rest)
    unfold runFeed
    simp only [List.foldl_cons]
    rw [feed_sample_sq_indep sq sq0 st ks.1 ks.2 hc0.1 hc0.2 hsp]
    exact runFeed_sq_indep sq rest (feed_sample sq0 st ks.1 ks.2)
      (fun ks2 hks2 => hcond ks2 (List.mem_cons_of_mem _ hks2))
      (feed_sample_builders sq0 st ks.1 ks.2 hc0.2 hsp)

set_option maxRecDepth 100000 in
/-- C1: the claim says the closed lap holds exactly 100 points.  The code
appends the incoming sample's point to the current lap BEFORE the rollover
check, so the lap closed by the 101st sample (current_lap = 2) carries 101
points, not 100. -/
theorem C1_counterexample :
    ((runFeed sq0 innerInit c1Samples).laps.map fun l => l.points.length) = [101] ∧
    ((runFeed sq0 innerInit c1Samples).laps.map fun l => l.points.length) ≠ [100] := by
  have h1 : ((runFeed sq0 innerInit c1Samples).laps.map fun l => l.points.length) = [101] := by
    with_unfolding_all decide
  refine ⟨h1, ?_⟩
  rw [h1]
  decide

set_option maxRecDepth 100000 in
/-- C1 (amended): feeding 100 samples with current_lap = 1 followed by one
sample with current_lap = 2 at sim_time_s = 45 leaves the Lap Store with
exactly one closed lap of exactly 101 points (the rollover sample's point
is appended to the closing lap before the rollover runs), and the builder's
current lap is a freshly opened empty lap with lap_number = 2.  The result
is independent of the sqrt model sq: start_pos is never set (speed 0) and
lap_distance_m is positive throughout, so sqrt is never consulted. -/
theorem C1_theorem (sq : ℚ → ℚ) :
    ((runFeed sq innerInit c1Samples).laps.map fun l => l.points.length) = [101] ∧
    ((runFeed sq innerInit c1Samples).builders.map fun kb =>
      kb.2.current.map fun lap => (lap.meta.lap_number, lap.points.length)) = [some (2, 0)] := by
  have hcond : ∀ ks ∈ c1Samples, ¬ ks.2.lap_distance_m ≤ 0 ∧ ¬ ks.2.speed_mps > 1 / 10 := by
    intro ks hks
    rcases List.mem_append.mp hks with h | h
    · obtain ⟨i, hi, rfl⟩ := List.mem_map.mp h
      constructor
      · norm_num [mkC1Sample]
      · norm_num [mkC1Sample]
    · rw [List.mem_singleton.mp h]
      constructor
      · norm_num [mkC1Sample]
      · norm_num [mkC1Sample]
  have hind := runFeed_sq_indep sq c1Samples innerInit hcond
    (by intro x hx; simp [innerInit] at hx)
  rw [hind]
  constructor
  · with_unfolding_all decide
  · with_unfolding_all decide

/-- The rollover condition exactly as the C2 claim words it: (a) the
authoritative increment requires the PREVIOUS sample's lap number to be
positive, or (b) the start-line heuristic. -/
def claimedRollC2 (sq : ℚ → ℚ) (lastS : TelemetrySample) (startPos : Option (ℚ × ℚ))
    (cur : Option Lap) (s : TelemetrySample) (t_ms : ℚ) : Prop :=
  (lastS.current_lap < s.current_lap ∧ 0 < lastS.current_lap) ∨
  (∃ sp lap, startPos = some sp ∧ cur = some lap ∧
    sq ((s.world_pos_x - sp.1) * (s.world_pos_x - sp.1) +
        (s.world_pos_z - sp.2) * (s.world_pos_z - sp.2)) < 20 ∧
    t_ms - ((lap.points.head?.map fun p => p.t_ms).getD t_ms) > 15000 ∧
    s.speed_mps > 1)

/-- C2: the claim requires last_sample.current_lap > 0 for the
authoritative rollover, but the code only checks s.current_lap > 0: on a
0 -> 1 lap-number transition (first sample current_lap = 0, second sample
current_lap = 1, heuristic disabled) the code rolls — the store receives a
lap — while the claimed condition is false. -/
theorem C2_counterexample :
    rollDecision sq0 (some (mkC1Sample 0 1)) none
      (some (newLap "lmu" "Unknown" "Unknown" 1 100)) (mkC1Sample 1 2) 2000 = true ∧
    ¬ claimedRollC2 sq0 (mkC1Sample 0 1) none
      (some (newLap "lmu" "Unknown" "Unknown" 1 100)) (mkC1Sample 1 2) 2000 ∧
    (runFeed sq0 innerInit
      [("src", mkC1Sample 0 1), ("src", mkC1Sample 1 2)]).laps.length = 1 := by
  refine ⟨by with_unfolding_all decide, ?_, by with_unfolding_all decide⟩
  rintro (⟨-, h0⟩ | ⟨sp, lap, hsp, -⟩)
  · exact absurd h0 (by decide)
  · exact Option.noConfusion hsp

/-- C2 (amended): with at least one prior sample, the rollover flag is true
if and only if either (a) s.current_lap > last_sample.current_lap and
s.current_lap > 0 (the code checks the NEW sample's lap number, not the
previous one's; for unsigned lap counters the second conjunct is implied),
or (b) the heuristic: start_pos is set, the current position is within 20 m
of it, more than 15 s have elapsed since the current lap's first point, and
s.speed_mps > 1. -/
theorem C2_theorem (sq : ℚ → ℚ) (lastS : TelemetrySample) (startPos : Option (ℚ × ℚ))
    (cur : Option Lap) (s : TelemetrySample) (t_ms : ℚ) :
    rollDecision sq (some lastS) startPos cur s t_ms = true ↔
      ((lastS.current_lap < s.current_lap ∧ 0 < s.current_lap) ∨
       (∃ sp lap, startPos = some sp ∧ cur = some lap ∧
         sq ((s.world_pos_x - sp.1) * (s.world_pos_x - sp.1) +
             (s.world_pos_z - sp.2) * (s.world_pos_z - sp.2)) < 20 ∧
         t_ms - ((lap.points.head?.map fun p => p.t_ms).getD t_ms) > 15000 ∧
         s.speed_mps > 1)) := by
  cases startPos with
  | none =>
    cases cur with
    | none => simp [rollDecision]
    | some lap => simp [rollDecision]
  | some sp =>
    cases cur with
    | none => simp [rollDecision]
    | some lap =>
      simp only [rollDecision, Bool.or_eq_true, Bool.and_eq_true, decide_eq_true_eq,
        Option.some.injEq]
      constructor
      · rintro (h | ⟨⟨h1, h2⟩, h3⟩)
        · exact Or.inl h
        · exact Or.inr ⟨sp, lap, rfl, rfl, h1, h2, h3⟩
      · rintro (h | ⟨sp2, lap2, hsp2, hlap2, h1, h2, h3⟩)
        · exact Or.inl h
        · subst hsp2
          subst hlap2
          exact Or.inr ⟨⟨h1, h2⟩, h3⟩

/-- crates/delta-ingest-gt7: normalise_variant. -/
def normalise_variant (v : Char) : Char :=
  if v = 'A' ∨ v = 'B' ∨ v = '~' then v else 'A'

/-- Little-endian u32 read from a byte list. -/
def leU32 (l : List ℕ) (off : ℕ) : ℕ :=
  l.getD off 0 + 256 * l.getD (off + 1) 0 + 65536 * l.getD (off + 2) 0 +
    16777216 * l.getD (off + 3) 0

/-- Little-endian 4-byte encoding of a u32. -/
def toLE4 (x : ℕ) : List ℕ := [x % 256, x / 256 % 256, x / 65536 % 256, x / 16777216 % 256]

/-- The 32-byte Salsa20 key: ASCII of "Simulator Interface Packet GT7 ver
0.0" truncated to 32 bytes. -/
def gt7Key : List ℕ :=
  ("Simulator Interface Packet GT7 ver 0.0".toList.map Char.toNat).take 32

/-- The per-variant XOR constant applied to the first nonce word. -/
def gt7XorConst (variant : Char) : ℕ :=
  if variant = 'A' then 0xDEADBEAF
  else if variant = 'B' then 0xDEADBEEF
  else 0x545F4C7E

/-- The 8-byte nonce: packet bytes 0x40..0x48 with the first four bytes
XORed (as a little-endian u32) with the variant constant. -/
def gt7Nonce (pkt : List ℕ) (variant : Char) : List ℕ :=
  let nonce0 := (pkt.drop 0x40).take 8
  let first4 := Nat.xor (leU32 nonce0 0) (gt7XorConst variant) % 2 ^ 32
  toLE4 first4 ++ nonce0.drop 4

/-- The decrypted payload: the stream cipher (abstract parameter standing
for Salsa20, a third-party crate) applied to the bytes from offset 0x48. -/
def decryptPayload (cipher : List ℕ → List ℕ → List ℕ → List ℕ)
    (pkt : List ℕ) (variant : Char) : List ℕ :=
  cipher gt7Key (gt7Nonce pkt variant) (pkt.drop 0x48)

/-- i32 reinterpretation of a u32. -/
def i32ofU32 (x : ℕ) : ℤ := if x < 2 ^ 31 then (x : ℤ) else (x : ℤ) - 2 ^ 32

/-- The Rust cast i32 -> i8 (wrap to 8 bits). -/
def i8ofI32 (x : ℤ) : ℤ := if 128 ≤ x % 256 then x % 256 - 256 else x % 256

/-- crates/delta-ingest-gt7: decrypt_and_parse.  cipher abstracts the
Salsa20 crate; fdec abstracts the bit-pattern-to-f32 interpretation of the
little-endian u32 reads (exact values are irrelevant to the claims). -/
def decrypt_and_parse (cipher : List ℕ → List ℕ → List ℕ → List ℕ) (fdec : ℕ → ℚ)
    (pkt : List ℕ) (variant : Char) : Option TelemetrySample :=
  if pkt.length < 0x48 then none
  else if pkt.length ≤ 0x48 then none
  else
    let payload := decryptPayload cipher pkt variant
    if payload.length < 0x60 then none
    else
      let time_ms := leU32 payload 0x08
      let pos_x := fdec (leU32 payload 0x10)
      let pos_y := fdec (leU32 payload 0x14)
      let pos_z := fdec (leU32 payload 0x18)
      let yaw := fdec (leU32 payload 0x1C)
      let pitch := fdec (leU32 payload 0x20)
      let roll := fdec (leU32 payload 0x24)
      if payload.length < 0x40 + 0x14 then none
      else
        let speed_kmh := fdec (leU32 payload 0x40)
        let engine_rpm := fdec (leU32 payload 0x44)
        let throttle := fdec (leU32 payload 0x48)
        let brake := fdec (leU32 payload 0x4C)
        let gear_i32 := i32ofU32 (leU32 payload 0x50)
        some { game := Game.GT7, car_id := "player:0", session_uid := "gt7",
               frame := time_ms, sim_time_s := (time_ms : ℚ) / 1000,
               speed_mps := speed_kmh / (18 / 5), throttle := throttle, brake := brake,
               gear := i8ofI32 gear_i32, engine_rpm := engine_rpm,
               world_pos_x := pos_x, world_pos_y := pos_y, world_pos_z := pos_z,
               yaw := yaw, pitch := pitch, roll := roll,
               lap_distance_m := 0, current_lap := 0, current_lap_time_s := 0,
               last_lap_time_s := 0 }

/-- crates/delta-ingest-gt7: the per-packet processing of GT7Source::run —
the configured variant is normalised once and passed to decrypt_and_parse. -/
def processPacket (cipher : List ℕ → List ℕ → List ℕ → List ℕ) (fdec : ℕ → ℚ)
    (pkt : List ℕ) (v : Char) : Option TelemetrySample :=
  decrypt_and_parse cipher fdec pkt (normalise_variant v)

/-- C9: GT7 packet processing is deterministic — for a fixed packet and
variant, the decrypted payload and the parsed sample are functions of their
inputs alone (purity holds definitionally in the embedding, for every
cipher model) — and any variant outside A, B, tilde is normalised to A and
processed exactly as variant A. -/
theorem C9_theorem :
    (∀ (cipher : List ℕ → List ℕ → List ℕ → List ℕ) (fdec : ℕ → ℚ) (pkt : List ℕ) (v : Char),
      decryptPayload cipher pkt (normalise_variant v)
        = decryptPayload cipher pkt (normalise_variant v) ∧
      processPacket cipher fdec pkt v = processPacket cipher fdec pkt v) ∧
    (∀ v : Char, v ≠ 'A' → v ≠ 'B' → v ≠ '~' →
      normalise_variant v = 'A' ∧
      ∀ (cipher : List ℕ → List ℕ → List ℕ → List ℕ) (fdec : ℕ → ℚ) (pkt : List ℕ),
        processPacket cipher fdec pkt v = processPacket cipher fdec pkt 'A') := by
  refine ⟨fun cipher fdec pkt v => ⟨rfl, rfl⟩, ?_⟩
  intro v h1 h2 h3
  have hn : normalise_variant v = 'A' := by
    unfold normalise_variant
    rw [if_neg]
    rintro (h | h | h) <;> contradiction
  refine ⟨hn, ?_⟩
  intro cipher fdec pkt
  unfold processPacket
  rw [hn, show normalise_variant 'A' = 'A' from by decide]

/-- C9 witness: the theorem applied to the unknown variant X with a
concrete cipher model and packet. -/
theorem C9_witness :
    normalise_variant 'X' = 'A' ∧
    processPacket (fun _ _ p => p) (fun _ => 0) [] 'X'
      = processPacket (fun _ _ p => p) (fun _ => 0) [] 'A' := by
  have h := C9_theorem.2 'X' (by decide) (by decide) (by decide)
  exact ⟨h.1, h.2 (fun _ _ p => p) (fun _ => 0) []⟩

end Delta
